import Mathlib

/-!
Shallow embedding of the bpfilter code-generation engine
(`src/bpfilter/cgen/program.h`): the runtime context descriptor layout,
the codegen addressing macros, the instruction buffer, the fixup ledger,
the program lifecycle (load/unload), counters access, bounded identifiers,
and the marshal/unmarshal serialization.

Functions declared in `program.h` whose bodies live outside the provided
sources are modelled from the specification; each such definition carries a
doc comment starting with `Modelled from the spec:`.
-/

namespace Bpfilter

/-! ## C struct layout model

The runtime context descriptor `struct bf_program_context` is a C struct.
We model the C layout algorithm: each field is placed at the smallest
offset, not less than the end of the previous field, that is a multiple of
the field alignment; the struct size is the end of the last field rounded
up to the struct alignment. -/

/-- Round `off` up to the next multiple of `a`. -/
def alignTo (off a : Nat) : Nat := ((off + a - 1) / a) * a

/-- A C struct field: its size and alignment in bytes. -/
structure CField where
  size : Nat
  align : Nat
deriving DecidableEq, Repr

/-- Offsets assigned to a list of fields laid out sequentially starting at
`off`, following the C layout rules. -/
def fieldOffsets : Nat → List CField → List Nat
  | _, [] => []
  | off, f :: fs =>
    let o := alignTo off f.align
    o :: fieldOffsets (o + f.size) fs

/-- Offset just past the last field of a struct whose layout starts at `off`. -/
def structEnd : Nat → List CField → Nat
  | off, [] => off
  | off, f :: fs => structEnd (alignTo off f.align + f.size) fs

/-- Size of a struct with alignment `a` and fields `fs` (end of the last
field rounded up to the struct alignment). -/
def structSize (a : Nat) (fs : List CField) : Nat := alignTo (structEnd 0 fs) a

/-- Size of a C union carrying the `bf_aligned(8)` attribute: the size of
its largest member, rounded up to the 8-byte alignment (the size of a type
is always a multiple of its alignment). -/
def unionSize8 (members : List Nat) : Nat := alignTo (members.foldr Nat.max 0) 8

/-! ## The runtime context descriptor, `struct bf_program_context`

Sizes of the protocol headers from the included kernel headers:
`ethhdr` is 14 bytes, `iphdr` 20, `ipv6hdr` 40, `icmphdr` 8, `udphdr` 8,
`tcphdr` 20, `icmp6hdr` 8; `struct bpf_dynptr` is two 64-bit words. -/

def sizeof_ethhdr : Nat := 14

def sizeof_iphdr : Nat := 20

def sizeof_ipv6hdr : Nat := 40

def sizeof_icmphdr : Nat := 8

def sizeof_udphdr : Nat := 8

def sizeof_tcphdr : Nat := 20

def sizeof_icmp6hdr : Nat := 8

def sizeof_bpf_dynptr : Nat := 16

/-- The size of the layer-2 header union of `bf_program_context`. -/
def l2_union_size : Nat := unionSize8 [sizeof_ethhdr]

/-- The size of the layer-3 header union of `bf_program_context`. -/
def l3_union_size : Nat := unionSize8 [sizeof_iphdr, sizeof_ipv6hdr]

/-- The size of the layer-4 header union of `bf_program_context`. -/
def l4_union_size : Nat :=
  unionSize8 [sizeof_icmphdr, sizeof_udphdr, sizeof_tcphdr, sizeof_icmp6hdr]

/-- Field list of `struct bf_program_context`, parameterized by the sizes of
the three per-layer header unions (each union carries `bf_aligned(8)`, as
does the trailing `scratch` array). Field order and types follow the struct
declaration in `program.h`. -/
def bf_program_context_fields (s2 s3 s4 : Nat) : List CField :=
  [⟨8, 8⟩,                 -- void *arg
   ⟨sizeof_bpf_dynptr, 8⟩, -- struct bpf_dynptr dynptr
   ⟨8, 8⟩,                 -- uint64_t pkt_size
   ⟨4, 4⟩,                 -- uint32_t l3_offset
   ⟨4, 4⟩,                 -- uint32_t l4_offset
   ⟨4, 4⟩,                 -- uint32_t ifindex
   ⟨8, 8⟩,                 -- void *l2_hdr
   ⟨8, 8⟩,                 -- void *l3_hdr
   ⟨8, 8⟩,                 -- void *l4_hdr
   ⟨s2, 8⟩,                -- layer 2 header union, bf_aligned(8)
   ⟨s3, 8⟩,                -- layer 3 header union, bf_aligned(8)
   ⟨s4, 8⟩,                -- layer 4 header union, bf_aligned(8)
   ⟨64, 8⟩]                -- uint8_t bf_aligned(8) scratch[64]

/-- Names of the fields of `struct bf_program_context`. -/
inductive CtxField
  | arg | dynptr | pkt_size | l3_offset | l4_offset | ifindex
  | l2_hdr | l3_hdr | l4_hdr | l2_union | l3_union | l4_union | scratch
deriving DecidableEq, Repr

/-- Index of a context field in the declaration order. -/
def CtxField.idx : CtxField → Nat
  | .arg => 0 | .dynptr => 1 | .pkt_size => 2 | .l3_offset => 3
  | .l4_offset => 4 | .ifindex => 5 | .l2_hdr => 6 | .l3_hdr => 7
  | .l4_hdr => 8 | .l2_union => 9 | .l3_union => 10 | .l4_union => 11
  | .scratch => 12

/-- `offsetof(struct bf_program_context, f)` for union sizes `s2 s3 s4`. -/
def ctx_offsetof_g (s2 s3 s4 : Nat) (f : CtxField) : Nat :=
  (fieldOffsets 0 (bf_program_context_fields s2 s3 s4)).getD f.idx 0

/-- `sizeof(struct bf_program_context)` for union sizes `s2 s3 s4`: the
struct itself carries `bf_aligned(8)`. -/
def sizeof_bf_program_context_g (s2 s3 s4 : Nat) : Nat :=
  structSize 8 (bf_program_context_fields s2 s3 s4)

/-- `offsetof(struct bf_program_context, f)` with the actual header sizes. -/
def ctx_offsetof (f : CtxField) : Nat :=
  ctx_offsetof_g l2_union_size l3_union_size l4_union_size f

/-- `sizeof(struct bf_program_context)` with the actual header sizes. -/
def sizeof_bf_program_context : Nat :=
  sizeof_bf_program_context_g l2_union_size l3_union_size l4_union_size

/-! ## Codegen addressing macros

`BF_PROG_CTX_OFF(field)` and `BF_PROG_SCR_OFF(offset)` from `program.h`,
verbatim: negative offsets from the frame-base register `BPF_REG_10`.
The C `(int)` casts are lossless here (all quantities fit in 31 bits). -/

/-- `BF_PROG_CTX_OFF(field)`:
`-(int)sizeof(struct bf_program_context) + (int)offsetof(struct bf_program_context, field)`. -/
def BF_PROG_CTX_OFF (field : CtxField) : Int :=
  -(sizeof_bf_program_context : Int) + (ctx_offsetof field : Int)

/-- `BF_PROG_SCR_OFF(offset)`:
`-(int)sizeof(struct bf_program_context) + (int)offsetof(struct bf_program_context, scratch) + (offset)`. -/
def BF_PROG_SCR_OFF (off : Int) : Int :=
  -(sizeof_bf_program_context : Int) + (ctx_offsetof .scratch : Int) + off

/-! ## Instructions

`struct bpf_insn` is a fixed-width 8-byte word: an 8-bit opcode, two 4-bit
register fields, a 16-bit offset and a 32-bit immediate. The signed `off`
and `imm` fields are modelled as their 16-bit and 32-bit patterns. -/

/-- One BPF instruction word (`struct bpf_insn`). -/
structure BpfInsn where
  code : Nat
  dst_reg : Nat
  src_reg : Nat
  off : Nat
  imm : Nat
deriving DecidableEq, Repr

/-- `sizeof(struct bpf_insn)`: the fixed 8-byte instruction width. -/
def sizeof_bpf_insn : Nat := 8

/-- Field ranges of a well-formed instruction word. -/
def BpfInsn.WF (i : BpfInsn) : Prop :=
  i.code < 2 ^ 8 ∧ i.dst_reg < 2 ^ 4 ∧ i.src_reg < 2 ^ 4 ∧ i.off < 2 ^ 16 ∧
    i.imm < 2 ^ 32

instance (i : BpfInsn) : Decidable i.WF := by
  unfold BpfInsn.WF
  infer_instance

/-- `BPF_PSEUDO_MAP_FD`: `src_reg` marker of a map-fd load. -/
def BPF_PSEUDO_MAP_FD : Nat := 1

/-- `BPF_LD | BPF_DW | BPF_IMM`: opcode of the first word of a 64-bit
immediate load. -/
def BPF_LD_DW_IMM : Nat := 0x18

/-- `BPF_LD_MAP_FD(DST, MAP_FD)`: the two-instruction-word sequence loading
a map file descriptor into register `dst` (a `BPF_LD_IMM64_RAW` with
`src_reg = BPF_PSEUDO_MAP_FD`; the second word carries the upper 32 bits of
the immediate). -/
def BPF_LD_MAP_FD (dst fd : Nat) : BpfInsn × BpfInsn :=
  (⟨BPF_LD_DW_IMM, dst, BPF_PSEUDO_MAP_FD, 0, fd % 2 ^ 32⟩,
   ⟨0, 0, 0, 0, fd / 2 ^ 32 % 2 ^ 32⟩)

/-! ## Errors

The error taxonomy of the specification (section 7). Kernel-call failures
carry the underlying status. -/

inductive BfError
  | resourceExhaustion
  | unresolvedSymbol
  | missingResource
  | outOfRange
  | verifierRejected
  | nameTooLong
  | pathTooLong
  | invalidFormat
  | unsupportedConstruct
  | kernelFailure (status : Nat)
deriving DecidableEq, Repr

/-! ## Fixups

`enum bf_fixup_type` and `struct bf_fixup` (from `fixup.h`, whose body is
outside the provided sources): the five fixup kinds of the specification.
The attribute payload is the referenced set index for `SET_MAP_FD` fixups
and absent otherwise. -/

inductive BfFixupType
  | funcCall
  | kfuncCall
  | jmpNextRule
  | countersMapFd
  | setMapFd
deriving DecidableEq, Repr

/-- A deferred patch record: its kind, the byte offset within the image
where the patch applies, and the type-dependent attribute. -/
structure BfFixup where
  type : BfFixupType
  offset : Nat
  attr : Option Nat
deriving DecidableEq, Repr

/-! ## Maps and counters -/

/-- A kernel map owned by the program (counters map or set map): its name
and its number of elements. -/
structure BfMap where
  name : List Nat
  n_elems : Nat
deriving DecidableEq, Repr

/-- A per-rule counter slot (`struct bf_counter`): packets and bytes. -/
structure BfCounter where
  packets : Nat
  bytes : Nat
deriving DecidableEq, Repr

/-! ## The program entity, `struct bf_program` -/

/-- The runtime-only part of `struct bf_program` (`program.runtime`): open
file descriptors, and the non-owning chain reference. This data is never
serialized. The flavor ops table is identified by the hook and is not part
of the state. -/
structure BfRuntime where
  prog_fd : Option Nat
  link_fd : Option Nat
  pmap_fd : Option Nat
  chain : Nat
deriving DecidableEq, Repr

/-- `struct bf_program`. Names and pin paths are byte strings; `img` is the
instruction image with its capacity `img_cap` tracked separately (the
logical size `img_size` is the length of `img`); `fixups` is the fixup
ledger in insertion order. -/
structure BfProgram where
  hook : Nat
  front : Nat
  prog_name : List Nat
  link_name : List Nat
  pmap_name : List Nat
  prog_pin_path : List Nat
  link_pin_path : List Nat
  pmap_pin_path : List Nat
  counters : Option BfMap
  sets : List BfMap
  printer : Nat
  num_counters : Nat
  functions_location : List Nat
  img : List BpfInsn
  img_cap : Nat
  fixups : List BfFixup
  runtime : BfRuntime
deriving DecidableEq, Repr

/-- `program->img_size`: the logical size of the instruction image. -/
def BfProgram.img_size (p : BfProgram) : Nat := p.img.length

/-- Modelled from the spec: `bf_program_new` (body outside the provided
sources) creates an empty program for a hook/front/chain triple. -/
def bf_program_new (hook front chain : Nat) : BfProgram :=
  { hook := hook, front := front,
    prog_name := [], link_name := [], pmap_name := [],
    prog_pin_path := [], link_pin_path := [], pmap_pin_path := [],
    counters := none, sets := [], printer := 0, num_counters := 0,
    functions_location := [0, 0], img := [], img_cap := 0, fixups := [],
    runtime := ⟨none, none, none, chain⟩ }

/-! ## Instruction buffer -/

/-- `current_offset()` of the instruction buffer: the byte offset the next
emitted instruction would occupy. -/
def BfProgram.current_offset (p : BfProgram) : Nat :=
  p.img.length * sizeof_bpf_insn

/-- Modelled from the spec: `bf_program_grow_img` (body outside the
provided sources) grows the image capacity geometrically, failing with
ResourceExhaustion when the allocation cannot be satisfied. The allocator
is modelled by the bound `maxCap` on the capacity it can provide; the
initial capacity of the model is 64 instructions. -/
def bf_program_grow_img (maxCap : Nat) (p : BfProgram) :
    Except BfError BfProgram :=
  let newCap := if p.img_cap = 0 then 64 else p.img_cap * 2
  if newCap ≤ maxCap then .ok { p with img_cap := newCap }
  else .error .resourceExhaustion

/-- Modelled from the spec: `bf_program_emit` (body outside the provided
sources) appends one instruction to the image, growing capacity on demand;
the buffer never shrinks, reorders, or removes. -/
def bf_program_emit (maxCap : Nat) (p : BfProgram) (insn : BpfInsn) :
    Except BfError BfProgram :=
  if p.img_size = p.img_cap then
    match bf_program_grow_img maxCap p with
    | .error e => .error e
    | .ok p1 => .ok { p1 with img := p1.img ++ [insn] }
  else
    .ok { p with img := p.img ++ [insn] }

/-- Emit a whole sequence of instructions, left to right. -/
def emitAll (maxCap : Nat) (p : BfProgram) : List BpfInsn →
    Except BfError BfProgram
  | [] => .ok p
  | i :: is =>
    match bf_program_emit maxCap p i with
    | .error e => .error e
    | .ok p1 => emitAll maxCap p1 is

/-! ## Fixup recording -/

/-- Modelled from the spec: `bf_program_emit_fixup` (body outside the
provided sources) appends a fixup whose offset is the current offset of
the instruction buffer, then emits the given placeholder instruction. -/
def bf_program_emit_fixup (maxCap : Nat) (p : BfProgram) (type : BfFixupType)
    (insn : BpfInsn) (attr : Option Nat) : Except BfError BfProgram :=
  let fx : BfFixup := ⟨type, p.current_offset, attr⟩
  match bf_program_emit maxCap { p with fixups := p.fixups ++ [fx] } insn with
  | .error e => .error e
  | .ok p1 => .ok p1

/-- `EMIT_LOAD_COUNTERS_FD_FIXUP(program, reg)` from `program.h`: record a
COUNTERS_MAP_FD fixup on the first word of a `BPF_LD_MAP_FD(reg, 0)`
placeholder sequence, then emit the trailing second word plainly. -/
def emit_load_counters_fd_fixup (maxCap : Nat) (p : BfProgram) (reg : Nat) :
    Except BfError BfProgram :=
  let ld := BPF_LD_MAP_FD reg 0
  match bf_program_emit_fixup maxCap p .countersMapFd ld.1 none with
  | .error e => .error e
  | .ok p1 => bf_program_emit maxCap p1 ld.2

/-- `EMIT_LOAD_SET_FD_FIXUP(program, reg, index)` from `program.h`: record
a SET_MAP_FD fixup carrying the set index on the first word of a
`BPF_LD_MAP_FD(reg, 0)` placeholder sequence, then emit the trailing second
word plainly. -/
def emit_load_set_fd_fixup (maxCap : Nat) (p : BfProgram) (reg idx : Nat) :
    Except BfError BfProgram :=
  let ld := BPF_LD_MAP_FD reg 0
  match bf_program_emit_fixup maxCap p .setMapFd ld.1 (some idx) with
  | .error e => .error e
  | .ok p1 => bf_program_emit maxCap p1 ld.2

/-! ## Counters -/

/-- Modelled from the spec: `bf_program_get_counter` (body outside the
provided sources) reads the per-rule counter at `counter_idx` from the live
kernel counters map (modelled as the function `kmap`); the index must be
less than `num_counters` or the call fails with OutOfRange. -/
def bf_program_get_counter (kmap : Nat → BfCounter) (p : BfProgram)
    (counter_idx : Nat) : Except BfError BfCounter :=
  if counter_idx < p.num_counters then .ok (kmap counter_idx)
  else .error .outOfRange

/-- Modelled from the spec: the per-index write primitive used by
`bf_program_set_counters` (body outside the provided sources) writes one
counter slot of the live kernel counters map; the index must be less than
`num_counters` or the call fails with OutOfRange. -/
def bf_program_set_counter (kmap : Nat → BfCounter) (p : BfProgram)
    (counter_idx : Nat) (c : BfCounter) : Except BfError (Nat → BfCounter) :=
  if counter_idx < p.num_counters then
    .ok (fun i => if i = counter_idx then c else kmap i)
  else .error .outOfRange

/-! ## Load and unload lifecycle -/

/-- A program is loaded when it holds open kernel handles. -/
def BfProgram.is_loaded (p : BfProgram) : Bool :=
  p.runtime.prog_fd.isSome || p.runtime.link_fd.isSome ||
    p.runtime.pmap_fd.isSome

/-- Modelled from the spec: `bf_program_unload` (body outside the provided
sources) detaches and releases the link, program, and printer-map kernel
objects and closes their handles; unloading a program not currently loaded
is a no-op, not an error. -/
def bf_program_unload (p : BfProgram) : Except BfError BfProgram :=
  if p.is_loaded then
    .ok { p with runtime :=
            { p.runtime with prog_fd := none, link_fd := none,
                             pmap_fd := none } }
  else .ok p

/-- The kernel interface as seen by `bf_program_load`: whether the verifier
accepts the image, whether object creation succeeds (carrying the kernel
status on failure), whether the attach step succeeds, and the descriptors
handed out. -/
structure Kernel where
  verifier_accepts : Bool
  create_status : Option Nat
  attach_status : Option Nat
  fds : Nat × Nat × Nat
deriving DecidableEq, Repr

/-- Modelled from the spec: `bf_program_load` (body outside the provided
sources) verifies the finalized image, creates the kernel objects, and
attaches at the hook, replacing `old_prog` when it is given; on failure the
error is reported and the state of `old_prog` is not modified. The pair
returned is the outcome for `new_prog` and the resulting state of
`old_prog`. -/
def bf_program_load (k : Kernel) (new_prog : BfProgram)
    (old_prog : Option BfProgram) :
    Except BfError BfProgram × Option BfProgram :=
  if k.verifier_accepts = false then (.error .verifierRejected, old_prog)
  else
    match k.create_status with
    | some status => (.error (.kernelFailure status), old_prog)
    | none =>
      match k.attach_status with
      | some status => (.error (.kernelFailure status), old_prog)
      | none =>
        (.ok { new_prog with runtime :=
                 { new_prog.runtime with
                     prog_fd := some k.fds.1,
                     link_fd := some k.fds.2.1,
                     pmap_fd := some k.fds.2.2 } },
         old_prog.map fun o =>
           { o with runtime :=
               { o.runtime with
                   prog_fd := none, link_fd := none, pmap_fd := none } })

/-! ## Bounded identifiers -/

/-- `PIN_PATH_LEN` from `program.h`. -/
def PIN_PATH_LEN : Nat := 64

/-- `BPF_OBJ_NAME_LEN` from `linux/bpf.h`: the kernel object-name limit. -/
def BPF_OBJ_NAME_LEN : Nat := 16

/-- The three kernel objects of a program that carry a bounded name and a
bounded pin path: the program itself, its link, and its printer map. -/
inductive BfObjKind
  | prog
  | link
  | pmap
deriving DecidableEq, Repr

/-- The name slot of a program for one of its three kernel objects. -/
def BfProgram.obj_name (p : BfProgram) : BfObjKind → List Nat
  | .prog => p.prog_name
  | .link => p.link_name
  | .pmap => p.pmap_name

/-- The pin-path slot of a program for one of its three kernel objects. -/
def BfProgram.pin_path (p : BfProgram) : BfObjKind → List Nat
  | .prog => p.prog_pin_path
  | .link => p.link_pin_path
  | .pmap => p.pmap_pin_path

/-- The program with the name of the given kernel object replaced. -/
def bf_program_with_name (p : BfProgram) : BfObjKind → List Nat → BfProgram
  | .prog, n => { p with prog_name := n }
  | .link, n => { p with link_name := n }
  | .pmap, n => { p with pmap_name := n }

/-- The program with the pin path of the given kernel object replaced. -/
def bf_program_with_pin_path (p : BfProgram) : BfObjKind → List Nat →
    BfProgram
  | .prog, q => { p with prog_pin_path := q }
  | .link, q => { p with link_pin_path := q }
  | .pmap, q => { p with pmap_pin_path := q }

/-- Modelled from the spec: assembling a kernel object name (program, link
or printer-map name, stored in a `char[BPF_OBJ_NAME_LEN]` with its NUL
terminator) validates the length and fails with NameTooLong rather than
truncating. -/
def bf_program_set_name (p : BfProgram) (w : BfObjKind) (name : List Nat) :
    Except BfError BfProgram :=
  if name.length < BPF_OBJ_NAME_LEN then .ok (bf_program_with_name p w name)
  else .error .nameTooLong

/-- Modelled from the spec: assembling a pin path (program, link or
printer-map pin path, stored in a `char[PIN_PATH_LEN]` with its NUL
terminator) validates the length and fails with PathTooLong rather than
truncating. -/
def bf_program_set_pin_path (p : BfProgram) (w : BfObjKind)
    (path : List Nat) : Except BfError BfProgram :=
  if path.length < PIN_PATH_LEN then
    .ok (bf_program_with_pin_path p w path)
  else .error .pathTooLong

/-! ## Serialization: marshal / unmarshal

Modelled from the spec: `bf_program_marsh` and `bf_program_unmarsh` (bodies
outside the provided sources) produce and parse a self-describing persisted
byte representation of everything needed to reconstruct a program without
redoing code generation: identity, names, pin paths, the finalized
instruction image, the informational fixup list, counters-map identity and
size, the set-map list, and the printer reference. Runtime fields are never
persisted. The byte stream is a list of byte values; scalars are encoded
as 8-byte little-endian words, byte strings and lists are length-prefixed. -/

/-- Encode a scalar below `2 ^ 64` as 8 little-endian bytes. -/
def encNat64 (n : Nat) : List Nat :=
  [n % 256, n / 256 % 256, n / 256 ^ 2 % 256, n / 256 ^ 3 % 256,
   n / 256 ^ 4 % 256, n / 256 ^ 5 % 256, n / 256 ^ 6 % 256, n / 256 ^ 7 % 256]

/-- Decode an 8-byte little-endian scalar, returning the remaining bytes. -/
def decNat64 : List Nat → Option (Nat × List Nat)
  | b0 :: b1 :: b2 :: b3 :: b4 :: b5 :: b6 :: b7 :: rest =>
    some (b0 + 256 * b1 + 256 ^ 2 * b2 + 256 ^ 3 * b3 + 256 ^ 4 * b4 +
      256 ^ 5 * b5 + 256 ^ 6 * b6 + 256 ^ 7 * b7, rest)
  | _ => none

/-- Encode a scalar below `2 ^ 16` as 2 little-endian bytes. -/
def encNat16 (n : Nat) : List Nat := [n % 256, n / 256 % 256]

/-- Decode a 2-byte little-endian scalar. -/
def decNat16 : List Nat → Option (Nat × List Nat)
  | b0 :: b1 :: rest => some (b0 + 256 * b1, rest)
  | _ => none

/-- Encode a scalar below `2 ^ 32` as 4 little-endian bytes. -/
def encNat32 (n : Nat) : List Nat :=
  [n % 256, n / 256 % 256, n / 256 ^ 2 % 256, n / 256 ^ 3 % 256]

/-- Decode a 4-byte little-endian scalar. -/
def decNat32 : List Nat → Option (Nat × List Nat)
  | b0 :: b1 :: b2 :: b3 :: rest =>
    some (b0 + 256 * b1 + 256 ^ 2 * b2 + 256 ^ 3 * b3, rest)
  | _ => none

/-- Encode a raw byte string, length-prefixed. -/
def encBytes (bs : List Nat) : List Nat := encNat64 bs.length ++ bs

/-- Decode a length-prefixed byte string. -/
def decBytes (bs : List Nat) : Option (List Nat × List Nat) :=
  match decNat64 bs with
  | some (n, rest) =>
    if n ≤ rest.length then some (rest.take n, rest.drop n) else none
  | none => none

/-- Encode the elements of a list back to back (no prefix). -/
def encListAux (enc : α → List Nat) : List α → List Nat
  | [] => []
  | x :: xs => enc x ++ encListAux enc xs

/-- Decode exactly `count` consecutive elements. -/
def decListN (dec : List Nat → Option (α × List Nat)) :
    Nat → List Nat → Option (List α × List Nat)
  | 0, bs => some ([], bs)
  | count + 1, bs =>
    match dec bs with
    | some (x, rest) =>
      match decListN dec count rest with
      | some (xs, rest1) => some (x :: xs, rest1)
      | none => none
    | none => none

/-- Encode a list, length-prefixed. -/
def encList (enc : α → List Nat) (xs : List α) : List Nat :=
  encNat64 xs.length ++ encListAux enc xs

/-- Decode a length-prefixed list. -/
def decList (dec : List Nat → Option (α × List Nat)) (bs : List Nat) :
    Option (List α × List Nat) :=
  match decNat64 bs with
  | some (n, rest) => decListN dec n rest
  | none => none

/-- Encode an optional value, tag-prefixed. -/
def encOpt (enc : α → List Nat) : Option α → List Nat
  | none => [0]
  | some x => 1 :: enc x

/-- Decode a tag-prefixed optional value. -/
def decOpt (dec : List Nat → Option (α × List Nat)) :
    List Nat → Option (Option α × List Nat)
  | [] => none
  | tag :: rest =>
    if tag = 0 then some (none, rest)
    else if tag = 1 then
      match dec rest with
      | some (x, rest1) => some (some x, rest1)
      | none => none
    else none

/-! ### Encoding instructions, fixups and maps -/

/-- Encode one instruction word as its 8 bytes, following the
`struct bpf_insn` layout: opcode byte, register byte (destination in the
low nibble), 16-bit offset, 32-bit immediate. -/
def encInsn (i : BpfInsn) : List Nat :=
  i.code :: (i.dst_reg + 16 * i.src_reg) :: (encNat16 i.off ++ encNat32 i.imm)

/-- Decode one instruction word. -/
def decInsn : List Nat → Option (BpfInsn × List Nat)
  | c :: regs :: rest =>
    match decNat16 rest with
    | some (o, rest1) =>
      match decNat32 rest1 with
      | some (im, rest2) => some (⟨c, regs % 16, regs / 16, o, im⟩, rest2)
      | none => none
    | none => none
  | _ => none

/-- Encode a fixup type as its tag byte. -/
def encFixupType : BfFixupType → Nat
  | .funcCall => 0
  | .kfuncCall => 1
  | .jmpNextRule => 2
  | .countersMapFd => 3
  | .setMapFd => 4

/-- Decode a fixup type tag. -/
def decFixupType (n : Nat) : Option BfFixupType :=
  if n = 0 then some .funcCall
  else if n = 1 then some .kfuncCall
  else if n = 2 then some .jmpNextRule
  else if n = 3 then some .countersMapFd
  else if n = 4 then some .setMapFd
  else none

/-- Bounds of a serializable fixup. -/
def BfFixup.WF (fx : BfFixup) : Prop :=
  fx.offset < 2 ^ 64 ∧ ∀ v ∈ fx.attr, v < 2 ^ 64

/-- Encode a fixup: tag byte, offset, optional attribute. -/
def encFixup (fx : BfFixup) : List Nat :=
  encFixupType fx.type :: (encNat64 fx.offset ++ encOpt encNat64 fx.attr)

/-- Decode a fixup. -/
def decFixup : List Nat → Option (BfFixup × List Nat)
  | [] => none
  | t :: rest =>
    match decFixupType t with
    | some ty =>
      match decNat64 rest with
      | some (off, rest1) =>
        match decOpt decNat64 rest1 with
        | some (attr, rest2) => some (⟨ty, off, attr⟩, rest2)
        | none => none
      | none => none
    | none => none

/-- Bounds of a serializable map description. -/
def BfMap.WF (m : BfMap) : Prop :=
  m.name.length < 2 ^ 64 ∧ m.n_elems < 2 ^ 64

/-- Encode a map description: name, then element count. -/
def encMap (m : BfMap) : List Nat :=
  encBytes m.name ++ encNat64 m.n_elems

/-- Decode a map description. -/
def decMap (bs : List Nat) : Option (BfMap × List Nat) :=
  match decBytes bs with
  | some (name, rest) =>
    match decNat64 rest with
    | some (n, rest1) => some (⟨name, n⟩, rest1)
    | none => none
  | none => none

/-! ### Marshal and unmarshal -/

/-- Modelled from the spec: `bf_program_marsh` (body outside the provided
sources) produces the persisted representation of a program: hook and
front identity, the three object names, the three pin paths, the counters
map, the set-map list, the printer reference, the counters-map size, the
function location table, the finalized instruction image, and the
informational fixup ledger. The transient runtime fields (file
descriptors, flavor ops, chain reference) are never persisted. -/
def bf_program_marsh (p : BfProgram) : List Nat :=
  encNat64 p.hook ++ encNat64 p.front ++
  encBytes p.prog_name ++ encBytes p.link_name ++ encBytes p.pmap_name ++
  encBytes p.prog_pin_path ++ encBytes p.link_pin_path ++
  encBytes p.pmap_pin_path ++
  encOpt encMap p.counters ++ encList encMap p.sets ++
  encNat64 p.printer ++ encNat64 p.num_counters ++
  encList encNat64 p.functions_location ++
  encList encInsn p.img ++ encList encFixup p.fixups

/-- Parse the persisted representation, returning the reconstructed
program and the unconsumed bytes. The runtime fields are re-initialized:
no open descriptors, the chain supplied by the caller; the image capacity
is re-derived from the restored image. -/
def unmarshAux (bs : List Nat) (chain : Nat) :
    Option (BfProgram × List Nat) := do
  let (hook, r1) ← decNat64 bs
  let (front, r2) ← decNat64 r1
  let (prog_name, r3) ← decBytes r2
  let (link_name, r4) ← decBytes r3
  let (pmap_name, r5) ← decBytes r4
  let (prog_pin_path, r6) ← decBytes r5
  let (link_pin_path, r7) ← decBytes r6
  let (pmap_pin_path, r8) ← decBytes r7
  let (counters, r9) ← decOpt decMap r8
  let (sets, r10) ← decList decMap r9
  let (printer, r11) ← decNat64 r10
  let (num_counters, r12) ← decNat64 r11
  let (functions_location, r13) ← decList decNat64 r12
  let (img, r14) ← decList decInsn r13
  let (fixups, r15) ← decList decFixup r14
  some ({ hook := hook, front := front, prog_name := prog_name,
          link_name := link_name, pmap_name := pmap_name,
          prog_pin_path := prog_pin_path, link_pin_path := link_pin_path,
          pmap_pin_path := pmap_pin_path, counters := counters, sets := sets,
          printer := printer, num_counters := num_counters,
          functions_location := functions_location, img := img,
          img_cap := img.length, fixups := fixups,
          runtime := ⟨none, none, none, chain⟩ }, r15)

/-- Modelled from the spec: `bf_program_unmarsh` (body outside the provided
sources) reconstructs a program, bound to the caller-supplied chain, from
its persisted representation; malformed or truncated data fails with
InvalidFormat, and so does trailing garbage. -/
def bf_program_unmarsh (bs : List Nat) (chain : Nat) :
    Except BfError BfProgram :=
  match unmarshAux bs chain with
  | some (p, []) => .ok p
  | some (_, _ :: _) => .error .invalidFormat
  | none => .error .invalidFormat

/-- Bounds under which a program is serializable (every scalar burned into
the persisted representation fits its fixed-width encoding). -/
def BfProgram.MarshWF (p : BfProgram) : Prop :=
  p.hook < 2 ^ 64 ∧ p.front < 2 ^ 64 ∧
  p.prog_name.length < 2 ^ 64 ∧ p.link_name.length < 2 ^ 64 ∧
  p.pmap_name.length < 2 ^ 64 ∧ p.prog_pin_path.length < 2 ^ 64 ∧
  p.link_pin_path.length < 2 ^ 64 ∧ p.pmap_pin_path.length < 2 ^ 64 ∧
  (∀ m ∈ p.counters, m.WF) ∧
  p.sets.length < 2 ^ 64 ∧ (∀ m ∈ p.sets, m.WF) ∧
  p.printer < 2 ^ 64 ∧ p.num_counters < 2 ^ 64 ∧
  p.functions_location.length < 2 ^ 64 ∧
  (∀ v ∈ p.functions_location, v < 2 ^ 64) ∧
  p.img.length < 2 ^ 64 ∧ (∀ i ∈ p.img, i.WF) ∧
  p.fixups.length < 2 ^ 64 ∧ (∀ fx ∈ p.fixups, fx.WF)

/-- The program reconstructed by unmarshal from the marshalled form of `p`:
`p` itself, with the image capacity re-derived and the runtime fields
re-initialized for the caller-supplied chain. -/
def bf_program_restore (p : BfProgram) (chain : Nat) : BfProgram :=
  { p with img_cap := p.img.length,
           runtime := ⟨none, none, none, chain⟩ }

/-! ## Layout lemmas -/

theorem alignTo_mod8 (x : Nat) : alignTo x 8 % 8 = 0 := by
  unfold alignTo
  exact Nat.mul_mod_left _ 8

theorem alignTo8_eq_self (x : Nat) (h : x % 8 = 0) : alignTo x 8 = x := by
  unfold alignTo
  omega

theorem unionSize8_mod8 (ms : List Nat) : unionSize8 ms % 8 = 0 :=
  alignTo_mod8 _

/-- Explicit offsets of the context fields, for any union sizes that are
multiples of 8 (which `bf_aligned(8)` on the unions guarantees). -/
theorem fieldOffsets_ctx (s2 s3 s4 : Nat) (h2 : s2 % 8 = 0) (h3 : s3 % 8 = 0)
    (h4 : s4 % 8 = 0) :
    fieldOffsets 0 (bf_program_context_fields s2 s3 s4) =
      [0, 8, 24, 32, 36, 40, 48, 56, 64, 72, 72 + s2, 72 + s2 + s3,
       72 + s2 + s3 + s4] := by
  simp only [bf_program_context_fields, fieldOffsets, alignTo, sizeof_bpf_dynptr,
    List.cons.injEq, and_true]
  norm_num
  omega

/-- The end of the last field of the context, for union sizes that are
multiples of 8. -/
theorem structEnd_ctx (s2 s3 s4 : Nat) (h2 : s2 % 8 = 0) (h3 : s3 % 8 = 0)
    (h4 : s4 % 8 = 0) :
    structEnd 0 (bf_program_context_fields s2 s3 s4) = 136 + s2 + s3 + s4 := by
  simp only [bf_program_context_fields, structEnd, alignTo, sizeof_bpf_dynptr]
  omega

/-- C3: the total size of the runtime context descriptor
`struct bf_program_context` is a multiple of 8 bytes, and this holds for
any choice of supported protocol headers at each layer: the header choice
only determines the members of the three unions, and whatever those member
sizes are, the descriptor size stays a multiple of 8. -/
theorem bf_program_context_size_multiple_of_8 :
    sizeof_bf_program_context % 8 = 0 ∧
    ∀ m2 m3 m4 : List Nat,
      sizeof_bf_program_context_g (unionSize8 m2) (unionSize8 m3)
          (unionSize8 m4) % 8 = 0 := by
  constructor
  · decide
  · intro m2 m3 m4
    unfold sizeof_bf_program_context_g structSize
    exact alignTo_mod8 _

/-- C10: within the runtime context descriptor, the three per-layer header
union buffers and the 64-byte scratch region are each individually aligned
to 8 bytes: their offsets within the descriptor are multiples of 8, for any
choice of union member sizes (i.e. of supported protocol headers). -/
theorem bf_program_context_union_scratch_offsets_aligned8 :
    (ctx_offsetof .l2_union % 8 = 0 ∧ ctx_offsetof .l3_union % 8 = 0 ∧
     ctx_offsetof .l4_union % 8 = 0 ∧ ctx_offsetof .scratch % 8 = 0) ∧
    ∀ m2 m3 m4 : List Nat,
      ctx_offsetof_g (unionSize8 m2) (unionSize8 m3) (unionSize8 m4)
          .l2_union % 8 = 0 ∧
      ctx_offsetof_g (unionSize8 m2) (unionSize8 m3) (unionSize8 m4)
          .l3_union % 8 = 0 ∧
      ctx_offsetof_g (unionSize8 m2) (unionSize8 m3) (unionSize8 m4)
          .l4_union % 8 = 0 ∧
      ctx_offsetof_g (unionSize8 m2) (unionSize8 m3) (unionSize8 m4)
          .scratch % 8 = 0 := by
  constructor
  · decide
  · intro m2 m3 m4
    have h := fieldOffsets_ctx (unionSize8 m2) (unionSize8 m3) (unionSize8 m4)
      (unionSize8_mod8 m2) (unionSize8_mod8 m3) (unionSize8_mod8 m4)
    have e2 := unionSize8_mod8 m2
    have e3 := unionSize8_mod8 m3
    have e4 := unionSize8_mod8 m4
    simp only [ctx_offsetof_g, h, CtxField.idx, List.getD]
    refine ⟨?_, ?_, ?_, ?_⟩ <;> simp <;> omega

/-- C2: the address used by generated code for every context field equals
`-(sizeof descriptor) + offsetof(field)` relative to the frame-base
register, and for every scratch sub-allocation at sub-offset `k` it equals
`-(sizeof descriptor) + offsetof(scratch) + k`; all field addresses lie
strictly inside the frame, below the frame base. -/
theorem bf_prog_ctx_off_addressing :
    (∀ f : CtxField,
        BF_PROG_CTX_OFF f =
          -(sizeof_bf_program_context : Int) + (ctx_offsetof f : Int)) ∧
    (∀ k : Int,
        BF_PROG_SCR_OFF k =
          -(sizeof_bf_program_context : Int) + (ctx_offsetof .scratch : Int)
            + k) ∧
    (∀ f : CtxField,
        -(sizeof_bf_program_context : Int) ≤ BF_PROG_CTX_OFF f ∧
          BF_PROG_CTX_OFF f < 0) := by
  refine ⟨fun _ => rfl, fun _ => rfl, fun f => ?_⟩
  cases f <;> decide

/-! ## Instruction buffer and fixup lemmas -/

/-- A successful emission appends exactly the given instruction and leaves
the fixup ledger and every other field unchanged. -/
theorem bf_program_emit_ok (maxCap : Nat) (p : BfProgram) (i : BpfInsn)
    (p' : BfProgram) (h : bf_program_emit maxCap p i = .ok p') :
    p'.img = p.img ++ [i] ∧ p'.fixups = p.fixups := by
  by_cases hc : p.img_size = p.img_cap
  · by_cases hg : (if p.img_cap = 0 then 64 else p.img_cap * 2) ≤ maxCap
    · simp only [bf_program_emit, bf_program_grow_img, if_pos hc, if_pos hg] at h
      cases h
      exact ⟨rfl, rfl⟩
    · simp only [bf_program_emit, bf_program_grow_img, if_pos hc, if_neg hg] at h
      cases h
  · simp only [bf_program_emit, if_neg hc] at h
    cases h
    exact ⟨rfl, rfl⟩

/-- A successful sequence of emissions appends exactly the given
instructions, in order, after the prior image. -/
theorem emitAll_ok (maxCap : Nat) (insns : List BpfInsn) :
    ∀ p p' : BfProgram, emitAll maxCap p insns = .ok p' →
      p'.img = p.img ++ insns ∧ p'.fixups = p.fixups := by
  induction insns with
  | nil =>
    intro p p' h
    cases h
    simp
  | cons i is ih =>
    intro p p' h
    unfold emitAll at h
    cases he : bf_program_emit maxCap p i with
    | error e => rw [he] at h; cases h
    | ok p1 =>
      rw [he] at h
      obtain ⟨h1, h2⟩ := bf_program_emit_ok maxCap p i p1 he
      obtain ⟨h3, h4⟩ := ih p1 p' h
      exact ⟨by simp [h3, h1], by rw [h4, h2]⟩

/-- A successful fixup recording appends exactly one fixup, whose offset is
the current offset of the buffer before the call, and emits exactly the
given placeholder instruction. -/
theorem bf_program_emit_fixup_ok (maxCap : Nat) (p : BfProgram)
    (ty : BfFixupType) (insn : BpfInsn) (attr : Option Nat) (p' : BfProgram)
    (h : bf_program_emit_fixup maxCap p ty insn attr = .ok p') :
    p'.fixups = p.fixups ++ [⟨ty, p.current_offset, attr⟩] ∧
      p'.img = p.img ++ [insn] := by
  unfold bf_program_emit_fixup at h
  simp only at h
  cases he : bf_program_emit maxCap
      { p with fixups := p.fixups ++ [⟨ty, p.current_offset, attr⟩] } insn with
  | error e => rw [he] at h; cases h
  | ok p1 =>
    rw [he] at h
    obtain ⟨h1, h2⟩ := bf_program_emit_ok maxCap _ insn _ he
    cases h
    exact ⟨h2, h1⟩

/-- C5: starting from an empty instruction buffer, after `N` successful
emissions `current_offset()` equals `N` times the fixed 8-byte instruction
width, and the resulting image is exactly the emitted sequence (growth
never reorders, drops, or modifies a previously emitted instruction);
moreover each single successful emission appends its instruction after the
unchanged prior image. -/
theorem instruction_buffer_offset_and_preservation (maxCap : Nat) :
    (∀ (p : BfProgram) (i : BpfInsn) (p' : BfProgram),
        bf_program_emit maxCap p i = .ok p' → p'.img = p.img ++ [i]) ∧
    (∀ (hook front chain : Nat) (insns : List BpfInsn) (p' : BfProgram),
        emitAll maxCap (bf_program_new hook front chain) insns = .ok p' →
          p'.current_offset = insns.length * sizeof_bpf_insn ∧
            p'.img = insns) := by
  constructor
  · intro p i p' h
    exact (bf_program_emit_ok maxCap p i p' h).1
  · intro hook front chain insns p' h
    obtain ⟨h1, _⟩ := emitAll_ok maxCap insns _ p' h
    simp [bf_program_new] at h1
    exact ⟨by rw [BfProgram.current_offset, h1], h1⟩

/-- C5 witness: emitting two concrete instructions into a fresh program
yields offset `2 * 8` and exactly those two instructions. -/
theorem instruction_buffer_offset_witness :
    emitAll 64 (bf_program_new 0 0 7)
        [⟨0x18, 1, 1, 0, 0⟩, ⟨5, 0, 0, 0, 0⟩] =
      .ok { bf_program_new 0 0 7 with
              img := [⟨0x18, 1, 1, 0, 0⟩, ⟨5, 0, 0, 0, 0⟩], img_cap := 64 } ∧
    ({ bf_program_new 0 0 7 with
        img := [⟨0x18, 1, 1, 0, 0⟩, ⟨5, 0, 0, 0, 0⟩],
        img_cap := 64 } : BfProgram).current_offset =
        2 * sizeof_bpf_insn ∧
    ({ bf_program_new 0 0 7 with
        img := [⟨0x18, 1, 1, 0, 0⟩, ⟨5, 0, 0, 0, 0⟩],
        img_cap := 64 } : BfProgram).img =
      [⟨0x18, 1, 1, 0, 0⟩, ⟨5, 0, 0, 0, 0⟩] := by
  have h : emitAll 64 (bf_program_new 0 0 7)
      [⟨0x18, 1, 1, 0, 0⟩, ⟨5, 0, 0, 0, 0⟩] =
      .ok { bf_program_new 0 0 7 with
              img := [⟨0x18, 1, 1, 0, 0⟩, ⟨5, 0, 0, 0, 0⟩],
              img_cap := 64 } := by rfl
  have h2 := (instruction_buffer_offset_and_preservation 64).2 0 0 7
    [⟨0x18, 1, 1, 0, 0⟩, ⟨5, 0, 0, 0, 0⟩] _ h
  exact ⟨h, h2.1, h2.2⟩

/-- C4: a successful fixup recording appends a fixup whose offset is the
instruction buffer offset at the time of the call, then emits the given
placeholder instruction; for the two-word counters-map and set-map handle
load sequences, exactly one fixup is recorded, at the first word's offset,
while the trailing word is emitted as a plain instruction; a SET_MAP_FD
fixup carries the index of the referenced set as its attribute. -/
theorem fixup_recording_offsets (maxCap : Nat) :
    (∀ (p : BfProgram) (ty : BfFixupType) (insn : BpfInsn) (attr : Option Nat)
        (p' : BfProgram),
        bf_program_emit_fixup maxCap p ty insn attr = .ok p' →
          p'.fixups = p.fixups ++ [⟨ty, p.current_offset, attr⟩] ∧
            p'.img = p.img ++ [insn]) ∧
    (∀ (p : BfProgram) (reg : Nat) (p' : BfProgram),
        emit_load_counters_fd_fixup maxCap p reg = .ok p' →
          p'.fixups =
              p.fixups ++ [⟨.countersMapFd, p.current_offset, none⟩] ∧
            p'.img =
              p.img ++ [(BPF_LD_MAP_FD reg 0).1, (BPF_LD_MAP_FD reg 0).2]) ∧
    (∀ (p : BfProgram) (reg idx : Nat) (p' : BfProgram),
        emit_load_set_fd_fixup maxCap p reg idx = .ok p' →
          p'.fixups =
              p.fixups ++ [⟨.setMapFd, p.current_offset, some idx⟩] ∧
            p'.img =
              p.img ++ [(BPF_LD_MAP_FD reg 0).1, (BPF_LD_MAP_FD reg 0).2]) := by
  refine ⟨fun p ty insn attr p' h => bf_program_emit_fixup_ok _ p ty insn attr p' h,
    ?_, ?_⟩
  · intro p reg p' h
    unfold emit_load_counters_fd_fixup at h
    simp only at h
    cases he : bf_program_emit_fixup maxCap p .countersMapFd
        (BPF_LD_MAP_FD reg 0).1 none with
    | error e => rw [he] at h; cases h
    | ok p1 =>
      rw [he] at h
      obtain ⟨h1, h2⟩ := bf_program_emit_fixup_ok maxCap p _ _ _ p1 he
      obtain ⟨h3, h4⟩ := bf_program_emit_ok maxCap p1 _ p' h
      exact ⟨by rw [h4, h1], by simp [h3, h2]⟩
  · intro p reg idx p' h
    unfold emit_load_set_fd_fixup at h
    simp only at h
    cases he : bf_program_emit_fixup maxCap p .setMapFd
        (BPF_LD_MAP_FD reg 0).1 (some idx) with
    | error e => rw [he] at h; cases h
    | ok p1 =>
      rw [he] at h
      obtain ⟨h1, h2⟩ := bf_program_emit_fixup_ok maxCap p _ _ _ p1 he
      obtain ⟨h3, h4⟩ := bf_program_emit_ok maxCap p1 _ p' h
      exact ⟨by rw [h4, h1], by simp [h3, h2]⟩

/-- C4 witness: recording a SET_MAP_FD fixup for set index 5 on a fresh
program records one fixup at offset 0 carrying attribute 5 and emits the
two placeholder words. -/
theorem fixup_recording_offsets_witness :
    emit_load_set_fd_fixup 64 (bf_program_new 0 0 7) 2 5 =
      .ok { bf_program_new 0 0 7 with
              fixups := [⟨.setMapFd, 0, some 5⟩],
              img := [(BPF_LD_MAP_FD 2 0).1, (BPF_LD_MAP_FD 2 0).2],
              img_cap := 64 } ∧
    [⟨BfFixupType.setMapFd, 0, some 5⟩] =
      (bf_program_new 0 0 7).fixups ++
        [⟨.setMapFd, (bf_program_new 0 0 7).current_offset, some 5⟩] := by
  have h : emit_load_set_fd_fixup 64 (bf_program_new 0 0 7) 2 5 =
      .ok { bf_program_new 0 0 7 with
              fixups := [⟨.setMapFd, 0, some 5⟩],
              img := [(BPF_LD_MAP_FD 2 0).1, (BPF_LD_MAP_FD 2 0).2],
              img_cap := 64 } := by rfl
  have h2 := ((fixup_recording_offsets 64).2.2) (bf_program_new 0 0 7) 2 5 _ h
  exact ⟨h, h2.1⟩

/-- C6: reading or writing a counter succeeds exactly when the index is
less than `num_counters`; index `num_counters` fails with OutOfRange while
index `num_counters - 1` succeeds (when there is at least one counter). -/
theorem counter_index_bound (kmap : Nat → BfCounter) (p : BfProgram)
    (c : BfCounter) (hpos : 0 < p.num_counters) :
    (∀ idx : Nat, idx < p.num_counters →
        bf_program_get_counter kmap p idx = .ok (kmap idx)) ∧
    (∀ idx : Nat, p.num_counters ≤ idx →
        bf_program_get_counter kmap p idx = .error .outOfRange ∧
          bf_program_set_counter kmap p idx c = .error .outOfRange) ∧
    bf_program_get_counter kmap p p.num_counters = .error .outOfRange ∧
    bf_program_get_counter kmap p (p.num_counters - 1) =
      .ok (kmap (p.num_counters - 1)) ∧
    bf_program_set_counter kmap p p.num_counters c = .error .outOfRange ∧
    bf_program_set_counter kmap p (p.num_counters - 1) c =
      .ok (fun i => if i = p.num_counters - 1 then c else kmap i) := by
  refine ⟨fun idx hidx => ?_, fun idx hidx => ⟨?_, ?_⟩, ?_, ?_, ?_, ?_⟩ <;>
    simp only [bf_program_get_counter, bf_program_set_counter] <;>
    first
      | rw [if_pos (by omega)]
      | rw [if_neg (by omega)]

/-- C6 witness: on a program with 3 counters, index 3 fails with OutOfRange
and index 2 succeeds. -/
theorem counter_index_bound_witness :
    (0 : Nat) < 3 ∧
    bf_program_get_counter (fun _ => ⟨0, 0⟩)
        { bf_program_new 0 0 7 with num_counters := 3 } 3 =
      .error .outOfRange ∧
    bf_program_get_counter (fun _ => ⟨0, 0⟩)
        { bf_program_new 0 0 7 with num_counters := 3 } 2 =
      .ok ⟨0, 0⟩ := by
  have h := counter_index_bound (fun _ => ⟨0, 0⟩)
    { bf_program_new 0 0 7 with num_counters := 3 } ⟨1, 1⟩ (by decide)
  exact ⟨by decide, h.2.2.1, h.2.2.2.1⟩

/-- C7: unloading a program that is not currently loaded is a no-op that
returns success; after any successful unload, a second unload of the same
program is a no-op returning success. -/
theorem unload_not_loaded_noop :
    (∀ p : BfProgram, p.is_loaded = false → bf_program_unload p = .ok p) ∧
    (∀ p p' : BfProgram, bf_program_unload p = .ok p' →
        bf_program_unload p' = .ok p') := by
  constructor
  · intro p h
    simp [bf_program_unload, h]
  · intro p p' h
    unfold bf_program_unload at h
    split at h
    · cases h
      simp [bf_program_unload, BfProgram.is_loaded]
    · cases h
      rename_i hnl
      simp only [bf_program_unload, hnl, Bool.false_eq_true, if_false]

/-- C7 witness: unloading a freshly created (never loaded) program is a
no-op, and unloading twice after a load is a no-op the second time. -/
theorem unload_not_loaded_noop_witness :
    (bf_program_new 0 0 7).is_loaded = false ∧
    bf_program_unload (bf_program_new 0 0 7) = .ok (bf_program_new 0 0 7) := by
  exact ⟨by decide, unload_not_loaded_noop.1 (bf_program_new 0 0 7) (by decide)⟩

/-- C8: whenever `bf_program_load` with a non-null `old_prog` fails, the
error is reported to the caller and the state of the previously loaded
program is exactly the state it had before the call. -/
theorem load_failure_preserves_old (k : Kernel) (new_prog old_prog : BfProgram)
    (e : BfError)
    (h : (bf_program_load k new_prog (some old_prog)).1 = .error e) :
    (bf_program_load k new_prog (some old_prog)).2 = some old_prog := by
  unfold bf_program_load at h ⊢
  by_cases hv : k.verifier_accepts = false
  · simp [hv]
  · simp only [hv, if_false] at h ⊢
    cases hcs : k.create_status with
    | some status => simp [hcs]
    | none =>
      simp only [hcs] at h ⊢
      cases has : k.attach_status with
      | some status => simp [has]
      | none => simp [has] at h

/-- C8 witness: a load whose attach step fails reports the kernel status
and leaves the old program untouched. -/
theorem load_failure_preserves_old_witness :
    (bf_program_load ⟨true, none, some 22, 3, 4, 5⟩ (bf_program_new 0 0 7)
        (some (bf_program_new 1 0 8))).1 =
      .error (.kernelFailure 22) ∧
    (bf_program_load ⟨true, none, some 22, 3, 4, 5⟩ (bf_program_new 0 0 7)
        (some (bf_program_new 1 0 8))).2 =
      some (bf_program_new 1 0 8) := by
  have h : (bf_program_load ⟨true, none, some 22, 3, 4, 5⟩
      (bf_program_new 0 0 7) (some (bf_program_new 1 0 8))).1 =
      .error (.kernelFailure 22) := by rfl
  exact ⟨h, load_failure_preserves_old _ _ _ _ h⟩

/-- C9: for every program and each of its three kernel objects (program,
link, printer map), a name exceeding the kernel object-name limit fails
with a fatal NameTooLong error, and a pin path exceeding the path-length
bound fails with a fatal PathTooLong error; a conforming name or pin path
is stored in full in that object's slot — the identifier is never
silently truncated. -/
theorem identifier_bounds_enforced (p : BfProgram) (w : BfObjKind)
    (name path : List Nat) :
    (BPF_OBJ_NAME_LEN ≤ name.length →
        bf_program_set_name p w name = .error .nameTooLong) ∧
    (name.length < BPF_OBJ_NAME_LEN →
        bf_program_set_name p w name =
          .ok (bf_program_with_name p w name)) ∧
    (bf_program_with_name p w name).obj_name w = name ∧
    (PIN_PATH_LEN ≤ path.length →
        bf_program_set_pin_path p w path = .error .pathTooLong) ∧
    (path.length < PIN_PATH_LEN →
        bf_program_set_pin_path p w path =
          .ok (bf_program_with_pin_path p w path)) ∧
    (bf_program_with_pin_path p w path).pin_path w = path := by
  refine ⟨fun h => ?_, fun h => ?_, ?_, fun h => ?_, fun h => ?_, ?_⟩
  · simp only [bf_program_set_name]
    rw [if_neg (by omega)]
  · simp only [bf_program_set_name]
    rw [if_pos (by omega)]
  · cases w <;> rfl
  · simp only [bf_program_set_pin_path]
    rw [if_neg (by omega)]
  · simp only [bf_program_set_pin_path]
    rw [if_pos (by omega)]
  · cases w <;> rfl

/-- C9 witness: a 16-byte link name fails with NameTooLong, a 15-byte
printer-map name is stored in full; a 64-byte link pin path fails with
PathTooLong, a 63-byte printer-map pin path is stored in full. -/
theorem identifier_bounds_enforced_witness :
    BPF_OBJ_NAME_LEN ≤ (List.replicate 16 97).length ∧
    bf_program_set_name (bf_program_new 0 0 7) .link (List.replicate 16 97) =
      .error .nameTooLong ∧
    bf_program_set_name (bf_program_new 0 0 7) .pmap (List.replicate 15 97) =
      .ok { bf_program_new 0 0 7 with pmap_name := List.replicate 15 97 } ∧
    bf_program_set_pin_path (bf_program_new 0 0 7) .link
        (List.replicate 64 97) =
      .error .pathTooLong ∧
    bf_program_set_pin_path (bf_program_new 0 0 7) .pmap
        (List.replicate 63 97) =
      .ok { bf_program_new 0 0 7 with
              pmap_pin_path := List.replicate 63 97 } := by
  refine ⟨by decide, ?_, ?_, ?_, ?_⟩
  · exact (identifier_bounds_enforced (bf_program_new 0 0 7) .link
      (List.replicate 16 97) []).1 (by decide)
  · exact (identifier_bounds_enforced (bf_program_new 0 0 7) .pmap
      (List.replicate 15 97) []).2.1 (by decide)
  · exact (identifier_bounds_enforced (bf_program_new 0 0 7) .link []
      (List.replicate 64 97)).2.2.2.1 (by decide)
  · exact (identifier_bounds_enforced (bf_program_new 0 0 7) .pmap []
      (List.replicate 63 97)).2.2.2.2.1 (by decide)

/-! ### Decoder round trips -/

theorem decNat64_encNat64 (n : Nat) (rest : List Nat) (h : n < 2 ^ 64) :
    decNat64 (encNat64 n ++ rest) = some (n, rest) := by
  simp only [encNat64, decNat64, List.cons_append, List.nil_append,
    Option.some.injEq, Prod.mk.injEq, and_true]
  omega

theorem decNat16_encNat16 (n : Nat) (rest : List Nat) (h : n < 2 ^ 16) :
    decNat16 (encNat16 n ++ rest) = some (n, rest) := by
  simp only [encNat16, decNat16, List.cons_append, List.nil_append,
    Option.some.injEq, Prod.mk.injEq, and_true]
  omega

theorem decNat32_encNat32 (n : Nat) (rest : List Nat) (h : n < 2 ^ 32) :
    decNat32 (encNat32 n ++ rest) = some (n, rest) := by
  simp only [encNat32, decNat32, List.cons_append, List.nil_append,
    Option.some.injEq, Prod.mk.injEq, and_true]
  omega

theorem decBytes_encBytes (bs rest : List Nat) (h : bs.length < 2 ^ 64) :
    decBytes (encBytes bs ++ rest) = some (bs, rest) := by
  simp only [encBytes, decBytes, List.append_assoc,
    decNat64_encNat64 bs.length (bs ++ rest) h]
  rw [if_pos (by simp)]
  simp

theorem decListN_encListAux {α : Type} (enc : α → List Nat)
    (dec : List Nat → Option (α × List Nat)) (P : α → Prop)
    (hrt : ∀ (x : α) (rest : List Nat), P x → dec (enc x ++ rest) =
      some (x, rest)) :
    ∀ (xs : List α) (rest : List Nat), (∀ x ∈ xs, P x) →
      decListN dec xs.length (encListAux enc xs ++ rest) = some (xs, rest) := by
  intro xs
  induction xs with
  | nil => intro rest _; rfl
  | cons x xs ih =>
    intro rest hp
    have h1 : encListAux enc (x :: xs) ++ rest =
        enc x ++ (encListAux enc xs ++ rest) := by
      simp [encListAux]
    rw [List.length_cons, h1]
    unfold decListN
    rw [hrt x _ (hp x (by simp))]
    dsimp only
    rw [ih rest (fun y hy => hp y (by simp [hy]))]

theorem decList_encList {α : Type} (enc : α → List Nat)
    (dec : List Nat → Option (α × List Nat)) (P : α → Prop)
    (hrt : ∀ (x : α) (rest : List Nat), P x → dec (enc x ++ rest) =
      some (x, rest))
    (xs : List α) (rest : List Nat) (hlen : xs.length < 2 ^ 64)
    (hp : ∀ x ∈ xs, P x) :
    decList dec (encList enc xs ++ rest) = some (xs, rest) := by
  unfold encList decList
  rw [List.append_assoc, decNat64_encNat64 xs.length _ hlen]
  exact decListN_encListAux enc dec P hrt xs rest hp

theorem decOpt_encOpt {α : Type} (enc : α → List Nat)
    (dec : List Nat → Option (α × List Nat)) (P : α → Prop)
    (hrt : ∀ (x : α) (rest : List Nat), P x → dec (enc x ++ rest) =
      some (x, rest))
    (o : Option α) (rest : List Nat) (hp : ∀ x ∈ o, P x) :
    decOpt dec (encOpt enc o ++ rest) = some (o, rest) := by
  cases o with
  | none => rfl
  | some x =>
    have h1 : encOpt enc (some x) ++ rest = 1 :: (enc x ++ rest) := by
      simp [encOpt]
    rw [h1]
    unfold decOpt
    dsimp only
    rw [if_neg (by omega), if_pos rfl, hrt x rest (hp x rfl)]

theorem decInsn_encInsn (i : BpfInsn) (rest : List Nat) (h : i.WF) :
    decInsn (encInsn i ++ rest) = some (i, rest) := by
  obtain ⟨h1, h2, h3, h4, h5⟩ := h
  cases i with
  | mk c d s o im =>
    simp only [BpfInsn.WF] at h1 h2 h3 h4 h5
    simp only [encInsn, List.cons_append, List.append_assoc, decInsn]
    rw [decNat16_encNat16 _ _ h4]
    dsimp only
    rw [decNat32_encNat32 _ _ h5]
    dsimp only
    have hd : (d + 16 * s) % 16 = d := by omega
    have hs : (d + 16 * s) / 16 = s := by omega
    rw [hd, hs]

theorem decFixupType_encFixupType (t : BfFixupType) :
    decFixupType (encFixupType t) = some t := by
  cases t <;> rfl

theorem decFixup_encFixup (fx : BfFixup) (rest : List Nat) (h : fx.WF) :
    decFixup (encFixup fx ++ rest) = some (fx, rest) := by
  obtain ⟨h1, h2⟩ := h
  cases fx with
  | mk ty off attr =>
    simp only [encFixup, List.cons_append, List.append_assoc, decFixup]
    rw [decFixupType_encFixupType]
    dsimp only
    rw [decNat64_encNat64 _ _ h1]
    dsimp only
    rw [decOpt_encOpt encNat64 decNat64 (· < 2 ^ 64) decNat64_encNat64 attr
      rest h2]

theorem decMap_encMap (m : BfMap) (rest : List Nat) (h : m.WF) :
    decMap (encMap m ++ rest) = some (m, rest) := by
  obtain ⟨h1, h2⟩ := h
  cases m with
  | mk name n =>
    simp only [encMap, List.append_assoc, decMap]
    rw [decBytes_encBytes _ _ h1]
    dsimp only
    rw [decNat64_encNat64 _ _ h2]

theorem unmarshAux_marsh (p : BfProgram) (chain : Nat) (rest : List Nat)
    (h : p.MarshWF) :
    unmarshAux (bf_program_marsh p ++ rest) chain =
      some (bf_program_restore p chain, rest) := by
  obtain ⟨h1, h2, h3, h4, h5, h6, h7, h8, h9, h10, h11, h12, h13, h14, h15,
    h16, h17, h18, h19⟩ := h
  unfold unmarshAux bf_program_marsh
  simp only [List.append_assoc]
  rw [decNat64_encNat64 _ _ h1]
  dsimp only [Option.bind_eq_bind, Option.some_bind]
  rw [decNat64_encNat64 _ _ h2]
  dsimp only [Option.some_bind]
  rw [decBytes_encBytes _ _ h3]
  dsimp only [Option.some_bind]
  rw [decBytes_encBytes _ _ h4]
  dsimp only [Option.some_bind]
  rw [decBytes_encBytes _ _ h5]
  dsimp only [Option.some_bind]
  rw [decBytes_encBytes _ _ h6]
  dsimp only [Option.some_bind]
  rw [decBytes_encBytes _ _ h7]
  dsimp only [Option.some_bind]
  rw [decBytes_encBytes _ _ h8]
  dsimp only [Option.some_bind]
  rw [decOpt_encOpt encMap decMap BfMap.WF decMap_encMap p.counters _ h9]
  dsimp only [Option.some_bind]
  rw [decList_encList encMap decMap BfMap.WF decMap_encMap p.sets _ h10 h11]
  dsimp only [Option.some_bind]
  rw [decNat64_encNat64 _ _ h12]
  dsimp only [Option.some_bind]
  rw [decNat64_encNat64 _ _ h13]
  dsimp only [Option.some_bind]
  rw [decList_encList encNat64 decNat64 (· < 2 ^ 64) decNat64_encNat64
    p.functions_location _ h14 h15]
  dsimp only [Option.some_bind]
  rw [decList_encList encInsn decInsn BpfInsn.WF decInsn_encInsn p.img _
    h16 h17]
  dsimp only [Option.some_bind]
  rw [decList_encList encFixup decFixup BfFixup.WF decFixup_encFixup p.fixups
    _ h18 h19]
  dsimp only [Option.some_bind]
  rfl

/-- C1: for every serializable program P, `unmarshal(marshal(P))` succeeds
and reproduces an instruction image byte-identical to the finalized image
of P, identical names and pin paths, an identical counters-map size, and
an identical set list; and marshal then unmarshal then re-marshal yields
byte-identical output (the transient runtime fields are excluded: they are
never persisted). -/
theorem marsh_unmarsh_roundtrip (p : BfProgram) (chain : Nat)
    (h : p.MarshWF) :
    bf_program_unmarsh (bf_program_marsh p) chain =
      .ok (bf_program_restore p chain) ∧
    (bf_program_restore p chain).img = p.img ∧
    (bf_program_restore p chain).prog_name = p.prog_name ∧
    (bf_program_restore p chain).link_name = p.link_name ∧
    (bf_program_restore p chain).pmap_name = p.pmap_name ∧
    (bf_program_restore p chain).prog_pin_path = p.prog_pin_path ∧
    (bf_program_restore p chain).link_pin_path = p.link_pin_path ∧
    (bf_program_restore p chain).pmap_pin_path = p.pmap_pin_path ∧
    (bf_program_restore p chain).num_counters = p.num_counters ∧
    (bf_program_restore p chain).counters = p.counters ∧
    (bf_program_restore p chain).sets = p.sets ∧
    bf_program_marsh (bf_program_restore p chain) = bf_program_marsh p := by
  refine ⟨?_, rfl, rfl, rfl, rfl, rfl, rfl, rfl, rfl, rfl, rfl, rfl⟩
  have haux := unmarshAux_marsh p chain [] h
  rw [List.append_nil] at haux
  unfold bf_program_unmarsh
  rw [haux]

/-- C1 witness: a concrete program with one set map, one fixup and a
two-instruction image round-trips through marshal and unmarshal. -/
theorem marsh_unmarsh_roundtrip_witness :
    ({ bf_program_new 0 0 7 with
        prog_name := [98, 102, 112], num_counters := 3,
        counters := some ⟨[99], 3⟩, sets := [⟨[115], 10⟩],
        img := [⟨0x18, 1, 1, 0, 0⟩, ⟨5, 0, 0, 0, 0⟩],
        fixups := [⟨.setMapFd, 0, some 0⟩] } : BfProgram).MarshWF ∧
    bf_program_unmarsh
        (bf_program_marsh
          { bf_program_new 0 0 7 with
              prog_name := [98, 102, 112], num_counters := 3,
              counters := some ⟨[99], 3⟩, sets := [⟨[115], 10⟩],
              img := [⟨0x18, 1, 1, 0, 0⟩, ⟨5, 0, 0, 0, 0⟩],
              fixups := [⟨.setMapFd, 0, some 0⟩] }) 9 =
      .ok (bf_program_restore
            { bf_program_new 0 0 7 with
                prog_name := [98, 102, 112], num_counters := 3,
                counters := some ⟨[99], 3⟩, sets := [⟨[115], 10⟩],
                img := [⟨0x18, 1, 1, 0, 0⟩, ⟨5, 0, 0, 0, 0⟩],
                fixups := [⟨.setMapFd, 0, some 0⟩] } 9) := by
  have hwf : ({ bf_program_new 0 0 7 with
      prog_name := [98, 102, 112], num_counters := 3,
      counters := some ⟨[99], 3⟩, sets := [⟨[115], 10⟩],
      img := [⟨0x18, 1, 1, 0, 0⟩, ⟨5, 0, 0, 0, 0⟩],
      fixups := [⟨.setMapFd, 0, some 0⟩] } : BfProgram).MarshWF := by
    simp only [BfProgram.MarshWF, BfMap.WF, BfFixup.WF, BpfInsn.WF,
      bf_program_new]
    norm_num
  exact ⟨hwf, (marsh_unmarsh_roundtrip _ 9 hwf).1⟩

end Bpfilter
